import Mathlib

/-!
# Verification of the recon bot's process-execution and output-delivery core

Shallow embedding of the pure logic of `src/bot.py`:

* `ellipsize`         embeds `_ellipsize` (the output limiter);
* `runCmd`            embeds `run_cmd` (the process runner), with the outcome of
  the subprocess launch made explicit as a `ProcOutcome` value;
* `splitlines`, `buildChunks`, `sendLongMarkdown` embed the segmentation logic
  of `send_long_markdown`;
* `dirSelect` / `cmdDirChoice` embed the probe-then-branch tool selection of
  `cmd_dir`;
* `isAllowed`         embeds `_is_allowed`.

Byte strings are modelled as `List Nat` (one `Nat` per byte); text is modelled
as `List Char`.  Size limits that the Python code reads from the environment
(`MAX_BYTES`, `MAX_TG`) are passed as explicit `Nat` parameters, with the
source's default values recorded as constants.
-/

namespace ReconBot

/-- Bytes, modelled as a list of byte values. -/
abbrev Bytes := List Nat

/-- The fixed truncation marker of `_ellipsize`:
`suffix = b"\n\n[Output truncated due to size limit]\n"`. -/
def truncationMarkerStr : String := "\n\n[Output truncated due to size limit]\n"

/-- The truncation marker as bytes (it is pure ASCII, so code points = bytes). -/
def truncSuffix : Bytes := truncationMarkerStr.toList.map Char.toNat

/-- Default output size cap: `MAX_BYTES = int(os.getenv("MAX_BYTES", "800000"))`. -/
def MAX_BYTES : Nat := 800000

/-- Embedding of `_ellipsize(data, limit)`:
```
if len(data) <= limit: return data
suffix = b"\n\n[Output truncated due to size limit]\n"
return data[: max(0, limit - len(suffix))] + suffix
```
Python's `max(0, limit - len(suffix))` is exactly truncated `Nat` subtraction. -/
def ellipsize (data : Bytes) (limit : Nat) : Bytes :=
  if data.length ≤ limit then data
  else data.take (limit - truncSuffix.length) ++ truncSuffix

/-- The triple `run_cmd` returns: `(returncode, stdout, stderr)`.  The byte
strings the runner fabricates itself are ASCII, so `String` stands for them. -/
structure RunResult where
  exitCode : Int
  stdout : String
  stderr : String
deriving DecidableEq

/-- The possible outcomes of launching and awaiting the subprocess, made
explicit so that `run_cmd`'s control flow becomes a total function:
`completed` = `communicate()` returned within the timeout with the given exit
code and output; `timedOut` = `asyncio.wait_for` raised `TimeoutError`;
`fileNotFound` = `create_subprocess_exec` raised `FileNotFoundError`;
`launchError` = any other exception `e` (its message as the argument). -/
inductive ProcOutcome where
  | completed (rc : Int) (stdout stderr : String)
  | timedOut
  | fileNotFound
  | launchError (msg : String)
deriving DecidableEq

/-- Embedding of `run_cmd(cmd, timeout)`.  Returns the `(rc, stdout, stderr)`
triple together with a flag recording whether `proc.kill()` was issued
(the forcible termination of the child on timeout).  Every branch of the
Python function returns; none re-raises, which the total function mirrors. -/
def runCmd (cmd : List String) (outcome : ProcOutcome) : RunResult × Bool :=
  match outcome with
  | .completed rc out err => (⟨rc, out, err⟩, false)
  | .timedOut => (⟨124, "", "Command timed out\n"⟩, true)
  | .fileNotFound => (⟨127, "", "Command not found: " ++ cmd.headD "" ++ "\n"⟩, false)
  | .launchError msg => (⟨1, "", "Execution error: " ++ msg ++ "\n"⟩, false)

/-- The characters Python's `str.splitlines` treats as line boundaries
(LF, CR, VT, FF, FS, GS, RS, NEL, LS, PS); CR LF is consumed as one
boundary by `splitlinesAux`. -/
def isLineBreak (c : Char) : Bool :=
  c == '\n' || c == '\r' || c == Char.ofNat 0x0b || c == Char.ofNat 0x0c ||
  c == Char.ofNat 0x1c || c == Char.ofNat 0x1d || c == Char.ofNat 0x1e ||
  c == Char.ofNat 0x85 || c == Char.ofNat 0x2028 || c == Char.ofNat 0x2029

/-- Embedding of `text.splitlines(keepends=True)`: splits at line boundaries,
keeping each boundary at the end of its line; `acc` holds the current line's
characters in reverse. -/
def splitlinesAux : List Char → List Char → List (List Char)
  | [], acc => if acc.isEmpty then [] else [acc.reverse]
  | '\r' :: '\n' :: rest, acc => (acc.reverse ++ ['\r', '\n']) :: splitlinesAux rest []
  | c :: rest, acc =>
    if isLineBreak c then (acc.reverse ++ [c]) :: splitlinesAux rest []
    else splitlinesAux rest (c :: acc)

/-- `lines = text.splitlines(keepends=True)`. -/
def splitlines (text : List Char) : List (List Char) := splitlinesAux text []

/-- The loop state of `send_long_markdown`'s chunking loop: the finished
`chunks`, the lines accumulated in `buf`, and the running character count
`cur`. -/
structure ChunkState where
  chunks : List (List Char)
  buf : List (List Char)
  cur : Nat
deriving DecidableEq

/-- One iteration of the loop
```
for ln in lines:
    ln_len = len(ln)
    if cur + ln_len > MAX_TG:
        chunks.append("".join(buf)); buf = [ln]; cur = ln_len
    else:
        buf.append(ln); cur += ln_len
```
-/
def chunkStep (maxTG : Nat) (st : ChunkState) (ln : List Char) : ChunkState :=
  if st.cur + ln.length > maxTG then
    ⟨st.chunks ++ [st.buf.flatten], [ln], ln.length⟩
  else
    ⟨st.chunks, st.buf ++ [ln], st.cur + ln.length⟩

/-- The final loop state of the chunking loop, starting from
`buf, cur = [], 0` and `chunks = []`. -/
def chunkFold (maxTG : Nat) (text : List Char) : ChunkState :=
  (splitlines text).foldl (chunkStep maxTG) ⟨[], [], 0⟩

/-- The chunk list `send_long_markdown` builds for an oversized `text`: the
loop above over all lines, then `if buf: chunks.append("".join(buf))`. -/
def buildChunks (maxTG : Nat) (text : List Char) : List (List Char) :=
  if (chunkFold maxTG text).buf.isEmpty then (chunkFold maxTG text).chunks
  else (chunkFold maxTG text).chunks ++ [(chunkFold maxTG text).buf.flatten]

/-- ASCII whitespace stripped by Python's `str.strip()` (space, TAB, LF, CR,
VT, FF); the embedding covers the ASCII whitespace the bot's output contains. -/
def isPySpace (c : Char) : Bool :=
  c == ' ' || c == '\t' || c == '\n' || c == '\r' ||
  c == Char.ofNat 0x0b || c == Char.ofNat 0x0c

/-- Embedding of `c.strip()`: drop leading and trailing whitespace. -/
def pyStrip (l : List Char) : List Char :=
  ((l.dropWhile isPySpace).reverse.dropWhile isPySpace).reverse

/-- The delivery plan `send_long_markdown` commits to: one direct message, a
sequence of chunk messages (each sent as `c.strip()`), or one document
attachment with a caption. -/
inductive DeliveryPlan where
  | single (t : List Char)
  | chunked (cs : List (List Char))
  | attachment (content : List Char) (caption : String)
deriving DecidableEq

/-- The caption of the attachment fallback. -/
def attachmentCaption : String := "Output panjang, dikirim sebagai file."

/-- Default chunk-size cap: `MAX_TG = 3900` (margin under Telegram's 4096). -/
def MAX_TG : Nat := 3900

/-- Embedding of the plan selection of `send_long_markdown(update, text)`:
direct send when `len(text) <= MAX_TG`; otherwise chunk by lines, falling back
to a document when `len(chunks) > 6`; each delivered chunk is `c.strip()`. -/
def sendLongMarkdown (maxTG : Nat) (text : List Char) : DeliveryPlan :=
  if text.length ≤ maxTG then DeliveryPlan.single text
  else if (buildChunks maxTG text).length > 6 then
    DeliveryPlan.attachment text attachmentCaption
  else DeliveryPlan.chunked ((buildChunks maxTG text).map pyStrip)

/-- `cmd_dir`'s preferred argv template: `["feroxbuster", "-u", url, "-n", "-q", "--silent"]`. -/
def feroxTemplate (url : String) : List String :=
  ["feroxbuster", "-u", url, "-n", "-q", "--silent"]

/-- `cmd_dir`'s fallback argv template:
`["dirsearch", "-u", url, "-e", "*", "--plain-text-report=/dev/stdout"]`. -/
def dirsearchTemplate (url : String) : List String :=
  ["dirsearch", "-u", url, "-e", "*", "--plain-text-report=/dev/stdout"]

/-- The availability probe `run_cmd(["which", "feroxbuster"])`. -/
def whichProbe : List String := ["which", "feroxbuster"]

/-- The two-branch selection in `cmd_dir`: `if rc == 0` use feroxbuster,
else dirsearch; returns the argv and the block title. -/
def dirSelect (url : String) (probeRc : Int) : List String × String :=
  if probeRc = 0 then (feroxTemplate url, "feroxbuster")
  else (dirsearchTemplate url, "dirsearch")

/-- `cmd_dir`'s choice as a function of the probe's outcome: the probe runs
`which feroxbuster` through `run_cmd` and the branch is taken on its exit
code. -/
def cmdDirChoice (url : String) (probe : ProcOutcome) : List String × String :=
  dirSelect url (runCmd whichProbe probe).1.exitCode

/-- Embedding of `_is_allowed(user_id)`:
```
if not ALLOWLIST: return True
return str(user_id) in ALLOWLIST
```
The allowlist (a set of strings in the source) is passed explicitly. -/
def isAllowed (allowlist : List String) (userId : Int) : Bool :=
  if allowlist.isEmpty then true
  else allowlist.contains (toString userId)

/-- Embedding of `ensure_auth`: denies exactly when an effective user is
present and `_is_allowed` rejects it. -/
def ensureAuth (allowlist : List String) (user : Option Int) : Bool :=
  match user with
  | some uid => isAllowed allowlist uid
  | none => true

/-- C2: for every byte sequence no longer than the limit, `_ellipsize` is the
exact identity. -/
theorem ellipsize_identity_below_limit (data : Bytes) (limit : Nat)
    (h : data.length ≤ limit) : ellipsize data limit = data := by
  simp [ellipsize, h]

/-- Witness for `ellipsize_identity_below_limit` at a concrete input. -/
theorem ellipsize_identity_below_limit_witness :
    ([7, 8, 9] : Bytes).length ≤ 5 ∧ ellipsize [7, 8, 9] 5 = [7, 8, 9] :=
  ⟨by decide, ellipsize_identity_below_limit [7, 8, 9] 5 (by decide)⟩

/-- C1 counterexample: the claim that the result of `_ellipsize` never exceeds
`max_size` fails when `max_size` is smaller than the 39-byte truncation
marker: on the 1-byte input `[65]` with `max_size = 0` the result is the whole
marker, of length 39 > 0. -/
theorem ellipsize_exceeds_tiny_limit :
    ([65] : Bytes).length > 0 ∧ ¬ (ellipsize [65] 0).length ≤ 0 := by
  constructor
  · decide
  · decide

/-- C1 (amended): whenever `max_size` is at least the marker's length, an
oversized input is mapped to its first `max_size - len(marker)` bytes followed
by the marker; the result's length never exceeds `max_size`, and the result
ends with the marker. -/
theorem ellipsize_truncates_within_limit (data : Bytes) (limit : Nat)
    (hm : truncSuffix.length ≤ limit) (h : limit < data.length) :
    ellipsize data limit = data.take (limit - truncSuffix.length) ++ truncSuffix ∧
    (ellipsize data limit).length ≤ limit ∧
    ∃ pre, ellipsize data limit = pre ++ truncSuffix := by
  have hnot : ¬ data.length ≤ limit := by omega
  have heq : ellipsize data limit
      = data.take (limit - truncSuffix.length) ++ truncSuffix := by
    simp [ellipsize, hnot]
  refine ⟨heq, ?_, ⟨data.take (limit - truncSuffix.length), heq⟩⟩
  rw [heq]
  have htake : (data.take (limit - truncSuffix.length)).length
      = limit - truncSuffix.length := by
    rw [List.length_take]
    omega
  rw [List.length_append, htake]
  omega

/-- Witness for `ellipsize_truncates_within_limit`: a 45-byte input with
`max_size = 40 ≥ 39`. -/
theorem ellipsize_truncates_within_limit_witness :
    truncSuffix.length ≤ 40 ∧ 40 < (List.replicate 45 65 : Bytes).length ∧
    (ellipsize (List.replicate 45 65) 40
        = (List.replicate 45 65 : Bytes).take (40 - truncSuffix.length) ++ truncSuffix ∧
      (ellipsize (List.replicate 45 65) 40).length ≤ 40 ∧
      ∃ pre, ellipsize (List.replicate 45 65) 40 = pre ++ truncSuffix) :=
  ⟨by decide, by decide,
    ellipsize_truncates_within_limit (List.replicate 45 65) 40 (by decide) (by decide)⟩

/-- C3: on timeout, `run_cmd` forcibly kills the child (the kill flag is set),
and returns exit code 124, empty stdout, and the timeout diagnostic on stderr,
without raising. -/
theorem runCmd_timeout (cmd : List String) :
    (runCmd cmd ProcOutcome.timedOut).1.exitCode = 124 ∧
    (runCmd cmd ProcOutcome.timedOut).1.stdout = "" ∧
    (runCmd cmd ProcOutcome.timedOut).1.stderr = "Command timed out\n" ∧
    (runCmd cmd ProcOutcome.timedOut).2 = true :=
  ⟨rfl, rfl, rfl, rfl⟩

/-- C4: when the executable cannot be located, `run_cmd` returns exit code 127,
empty stdout, and a stderr message containing `argv[0]`; any other launch-time
exception is mapped to exit code 1 (non-zero) with a descriptive stderr
message.  Neither branch raises to the caller. -/
theorem runCmd_launch_failures (c : String) (cs : List String) (msg : String) :
    ((runCmd (c :: cs) ProcOutcome.fileNotFound).1.exitCode = 127 ∧
     (runCmd (c :: cs) ProcOutcome.fileNotFound).1.stdout = "" ∧
     ∃ pre post, (runCmd (c :: cs) ProcOutcome.fileNotFound).1.stderr
        = pre ++ c ++ post) ∧
    ((runCmd (c :: cs) (ProcOutcome.launchError msg)).1.exitCode = 1 ∧
     (runCmd (c :: cs) (ProcOutcome.launchError msg)).1.stdout = "" ∧
     (runCmd (c :: cs) (ProcOutcome.launchError msg)).1.stderr
        = "Execution error: " ++ msg ++ "\n") :=
  ⟨⟨rfl, rfl, "Command not found: ", "\n", rfl⟩, ⟨rfl, rfl, rfl⟩⟩

/-- Unfolding equation of `splitlinesAux` on the empty list. -/
theorem splitlinesAux_nil (acc : List Char) :
    splitlinesAux [] acc = if acc.isEmpty then [] else [acc.reverse] := rfl

/-- Unfolding equation of `splitlinesAux` on a CR LF boundary. -/
theorem splitlinesAux_crlf (rest acc : List Char) :
    splitlinesAux ('\r' :: '\n' :: rest) acc
      = (acc.reverse ++ ['\r', '\n']) :: splitlinesAux rest [] := rfl

set_option maxHeartbeats 1000000 in
/-- Unfolding equation of `splitlinesAux` on any cons that is not a CR LF
boundary. -/
theorem splitlinesAux_cons (c : Char) (rest acc : List Char)
    (h : ∀ rest2 : List Char, c = '\r' → rest = '\n' :: rest2 → False) :
    splitlinesAux (c :: rest) acc
      = if isLineBreak c then (acc.reverse ++ [c]) :: splitlinesAux rest []
        else splitlinesAux rest (c :: acc) := by
  rw [splitlinesAux.eq_def]
  rcases rest with _ | ⟨r, rest⟩
  · rcases eq_or_ne c '\r' with rfl | hc
    · rfl
    · simp [hc]
  · rcases eq_or_ne c '\r' with rfl | hc
    · rcases eq_or_ne r '\n' with rfl | hr
      · exact absurd (h rest rfl rfl) (fun f => f)
      · simp [hr]
    · simp [hc]

/-- Joining the lines produced by `splitlinesAux` restores the text. -/
theorem flatten_splitlinesAux (s acc : List Char) :
    (splitlinesAux s acc).flatten = acc.reverse ++ s := by
  induction s, acc using splitlinesAux.induct with
  | case1 acc h =>
    rw [splitlinesAux_nil, if_pos h]
    simp [List.isEmpty_iff.mp h]
  | case2 acc h =>
    rw [splitlinesAux_nil, if_neg h]
    simp
  | case3 rest acc ih =>
    rw [splitlinesAux_crlf]
    simp [ih]
  | case4 c rest acc h hl ih =>
    rw [splitlinesAux_cons c rest acc h, if_pos hl]
    simp [ih]
  | case5 c rest acc h hl ih =>
    rw [splitlinesAux_cons c rest acc h, if_neg hl]
    simp [ih]

/-- `"".join(lines) == text`: splitting into kept-ends lines loses nothing. -/
theorem flatten_splitlines (text : List Char) : (splitlines text).flatten = text := by
  rw [splitlines, flatten_splitlinesAux]
  simp

/-- One chunking step preserves `cur == len("".join(buf))`. -/
theorem chunkStep_cur (maxTG : Nat) (st : ChunkState) (a : List Char)
    (h : st.cur = st.buf.flatten.length) :
    (chunkStep maxTG st a).cur = (chunkStep maxTG st a).buf.flatten.length := by
  unfold chunkStep
  by_cases hc : st.cur + a.length > maxTG
  · rw [if_pos hc]
    simp
  · rw [if_neg hc]
    simp [h, List.flatten_append]

/-- The chunking loop preserves `cur == len("".join(buf))`. -/
theorem chunkFold_cur (maxTG : Nat) (ls : List (List Char)) (st : ChunkState)
    (h : st.cur = st.buf.flatten.length) :
    (ls.foldl (chunkStep maxTG) st).cur
      = (ls.foldl (chunkStep maxTG) st).buf.flatten.length := by
  induction ls generalizing st with
  | nil => exact h
  | cons a ls ih =>
    rw [List.foldl_cons]
    exact ih _ (chunkStep_cur maxTG st a h)

/-- The chunking loop keeps every character: finished chunks plus the pending
buffer always join to the input consumed so far. -/
theorem chunkFold_flatten (maxTG : Nat) (ls : List (List Char)) (st : ChunkState) :
    ((ls.foldl (chunkStep maxTG) st).chunks).flatten
        ++ ((ls.foldl (chunkStep maxTG) st).buf).flatten
      = st.chunks.flatten ++ st.buf.flatten ++ ls.flatten := by
  induction ls generalizing st with
  | nil => simp
  | cons a ls ih =>
    rw [List.foldl_cons, ih]
    by_cases hc : st.cur + a.length > maxTG <;> simp [chunkStep, hc]

/-- Joining the chunk plan of `send_long_markdown` restores the text. -/
theorem buildChunks_flatten (maxTG : Nat) (text : List Char) :
    (buildChunks maxTG text).flatten = text := by
  have h := chunkFold_flatten maxTG (splitlines text) ⟨[], [], 0⟩
  rw [flatten_splitlines] at h
  have hfold : (splitlines text).foldl (chunkStep maxTG) ⟨[], [], 0⟩
      = chunkFold maxTG text := rfl
  rw [hfold] at h
  simp only [List.flatten_nil, List.nil_append] at h
  unfold buildChunks
  by_cases hb : (chunkFold maxTG text).buf.isEmpty
  · rw [if_pos hb]
    rw [List.isEmpty_iff.mp hb] at h
    simpa using h
  · rw [if_neg hb]
    simpa using h

/-- Size invariant of the chunking loop: every finished chunk is within the
limit or is a single input line, and the pending buffer is within the limit or
holds exactly one input line. -/
theorem chunkFold_sizes (maxTG : Nat) (L ls : List (List Char)) (st : ChunkState)
    (hsub : ∀ l ∈ ls, l ∈ L)
    (hcur : st.cur = st.buf.flatten.length)
    (hch : ∀ c ∈ st.chunks, c.length ≤ maxTG ∨ c ∈ L)
    (hbuf : st.buf.flatten.length ≤ maxTG ∨ ∃ l ∈ L, st.buf = [l]) :
    (∀ c ∈ (ls.foldl (chunkStep maxTG) st).chunks, c.length ≤ maxTG ∨ c ∈ L) ∧
    ((ls.foldl (chunkStep maxTG) st).buf.flatten.length ≤ maxTG ∨
      ∃ l ∈ L, (ls.foldl (chunkStep maxTG) st).buf = [l]) := by
  induction ls generalizing st with
  | nil => exact ⟨hch, hbuf⟩
  | cons a ls ih =>
    rw [List.foldl_cons]
    have ha : a ∈ L := hsub a (List.mem_cons_self a ls)
    have hch2 : ∀ c ∈ (chunkStep maxTG st a).chunks, c.length ≤ maxTG ∨ c ∈ L := by
      intro c hc
      by_cases hcc : st.cur + a.length > maxTG
      · simp only [chunkStep, if_pos hcc] at hc
        rcases List.mem_append.mp hc with h1 | h2
        · exact hch c h1
        · have hceq : c = st.buf.flatten := by simpa using h2
          subst hceq
          rcases hbuf with h3 | ⟨l, hlL, hbl⟩
          · exact Or.inl h3
          · right
            rw [hbl]
            simpa using hlL
      · simp only [chunkStep, if_neg hcc] at hc
        exact hch c hc
    have hbuf2 : (chunkStep maxTG st a).buf.flatten.length ≤ maxTG ∨
        ∃ l ∈ L, (chunkStep maxTG st a).buf = [l] := by
      by_cases hcc : st.cur + a.length > maxTG
      · simp only [chunkStep, if_pos hcc]
        by_cases hal : a.length ≤ maxTG
        · left
          simpa using hal
        · right
          exact ⟨a, ha, rfl⟩
      · simp only [chunkStep, if_neg hcc]
        left
        have h2 : (st.buf ++ [a]).flatten.length ≤ maxTG := by
          simp only [List.flatten_append, List.length_append]
          simp only [not_lt] at hcc
          rw [hcur] at hcc
          simpa using hcc
        simpa using h2
    exact ih _ (fun l hl => hsub l (List.mem_cons_of_mem a hl))
      (chunkStep_cur maxTG st a hcur) hch2 hbuf2

/-- One chunking step never merges an oversized line into a larger chunk: an
oversized line already flushed (or alone in the buffer) stays that way. -/
theorem chunkStep_keeps_oversized (maxTG : Nat) (st : ChunkState) (a l : List Char)
    (hcur : st.cur = st.buf.flatten.length)
    (hlen : maxTG < l.length)
    (h : l ∈ st.chunks ∨ st.buf = [l]) :
    l ∈ (chunkStep maxTG st a).chunks ∨ (chunkStep maxTG st a).buf = [l] := by
  by_cases hc : st.cur + a.length > maxTG
  · simp only [chunkStep, if_pos hc]
    rcases h with h1 | h2
    · exact Or.inl (List.mem_append_left _ h1)
    · left
      apply List.mem_append_right
      rw [h2]
      simp
  · simp only [chunkStep, if_neg hc]
    rcases h with h1 | h2
    · exact Or.inl h1
    · exfalso
      rw [h2] at hcur
      simp at hcur
      omega

/-- The chunking loop keeps an oversized line alone once it is alone. -/
theorem chunkFold_keeps_oversized (maxTG : Nat) (ls : List (List Char))
    (st : ChunkState) (l : List Char)
    (hcur : st.cur = st.buf.flatten.length)
    (hlen : maxTG < l.length)
    (h : l ∈ st.chunks ∨ st.buf = [l]) :
    l ∈ (ls.foldl (chunkStep maxTG) st).chunks ∨
      (ls.foldl (chunkStep maxTG) st).buf = [l] := by
  induction ls generalizing st with
  | nil => exact h
  | cons a ls ih =>
    rw [List.foldl_cons]
    exact ih _ (chunkStep_cur maxTG st a hcur)
      (chunkStep_keeps_oversized maxTG st a l hcur hlen h)

/-- Every oversized input line ends up flushed on its own (or alone in the
pending buffer) after the chunking loop. -/
theorem chunkFold_oversized (maxTG : Nat) (ls : List (List Char)) (st : ChunkState)
    (hcur : st.cur = st.buf.flatten.length) :
    ∀ l ∈ ls, maxTG < l.length →
      l ∈ (ls.foldl (chunkStep maxTG) st).chunks ∨
        (ls.foldl (chunkStep maxTG) st).buf = [l] := by
  induction ls generalizing st with
  | nil =>
    intro l hl
    exact absurd hl (List.not_mem_nil l)
  | cons a ls ih =>
    intro l hl hlen
    rw [List.foldl_cons]
    rcases List.mem_cons.mp hl with rfl | hl2
    · have hc : st.cur + l.length > maxTG := by omega
      apply chunkFold_keeps_oversized maxTG ls _ l (chunkStep_cur maxTG st l hcur) hlen
      right
      simp [chunkStep, hc]
    · exact ih _ (chunkStep_cur maxTG st a hcur) l hl2 hlen

/-- C5: for oversized text, every chunk fits within `max_chunk_size`, except
that an oversized chunk is always exactly one whole input line; conversely,
every line longer than `max_chunk_size` is placed alone as its own chunk. -/
theorem segmenter_line_bounded (maxTG : Nat) (text : List Char)
    (hgt : maxTG < text.length) :
    (∀ chunk ∈ buildChunks maxTG text,
        chunk.length ≤ maxTG ∨ chunk ∈ splitlines text) ∧
    (∀ ln ∈ splitlines text, maxTG < ln.length → ln ∈ buildChunks maxTG text) := by
  have hfold : (splitlines text).foldl (chunkStep maxTG) ⟨[], [], 0⟩
      = chunkFold maxTG text := rfl
  have hsz := chunkFold_sizes maxTG (splitlines text) (splitlines text) ⟨[], [], 0⟩
    (fun l hl => hl) rfl (fun c hc => absurd hc (List.not_mem_nil c)) (Or.inl (by simp))
  rw [hfold] at hsz
  have hov := chunkFold_oversized maxTG (splitlines text) ⟨[], [], 0⟩ rfl
  constructor
  · intro chunk hc
    unfold buildChunks at hc
    by_cases hb : (chunkFold maxTG text).buf.isEmpty
    · rw [if_pos hb] at hc
      exact hsz.1 chunk hc
    · rw [if_neg hb] at hc
      rcases List.mem_append.mp hc with h1 | h2
      · exact hsz.1 chunk h1
      · have hceq : chunk = (chunkFold maxTG text).buf.flatten := by simpa using h2
        subst hceq
        rcases hsz.2 with h3 | ⟨l, hlL, hbl⟩
        · exact Or.inl h3
        · right
          rw [hbl]
          simpa using hlL
  · intro ln hl hlen
    have hov2 := hov ln hl hlen
    rw [hfold] at hov2
    unfold buildChunks
    rcases hov2 with h1 | h2
    · by_cases hb : (chunkFold maxTG text).buf.isEmpty
      · rw [if_pos hb]
        exact h1
      · rw [if_neg hb]
        exact List.mem_append_left _ h1
    · have hb : ¬ (chunkFold maxTG text).buf.isEmpty = true := by
        rw [h2]
        simp
      rw [if_neg hb, h2]
      apply List.mem_append_right
      simp

/-- Witness for `segmenter_line_bounded`: one short line, one oversized line,
one short line, with `max_chunk_size = 3`. -/
theorem segmenter_line_bounded_witness :
    3 < ("ab\ncdefg\nhi\n".toList).length ∧
    ((∀ chunk ∈ buildChunks 3 "ab\ncdefg\nhi\n".toList,
        chunk.length ≤ 3 ∨ chunk ∈ splitlines "ab\ncdefg\nhi\n".toList) ∧
     (∀ ln ∈ splitlines "ab\ncdefg\nhi\n".toList,
        3 < ln.length → ln ∈ buildChunks 3 "ab\ncdefg\nhi\n".toList)) :=
  ⟨by decide, segmenter_line_bounded 3 "ab\ncdefg\nhi\n".toList (by decide)⟩

/-- C6: when an oversized text does not trigger the attachment fallback, the
chunks concatenate back to the text exactly, and the delivered plan is those
chunks, each trimmed of leading/trailing whitespace (the only deviation). -/
theorem chunk_concat_reproduces_text (maxTG : Nat) (text : List Char)
    (hgt : maxTG < text.length)
    (hle : (buildChunks maxTG text).length ≤ 6) :
    (buildChunks maxTG text).flatten = text ∧
    sendLongMarkdown maxTG text
      = DeliveryPlan.chunked ((buildChunks maxTG text).map pyStrip) := by
  refine ⟨buildChunks_flatten maxTG text, ?_⟩
  have h1 : ¬ text.length ≤ maxTG := by omega
  have h2 : ¬ (buildChunks maxTG text).length > 6 := by omega
  simp [sendLongMarkdown, h1, h2]

/-- Witness for `chunk_concat_reproduces_text`: two lines, two chunks, with
`max_chunk_size = 3`. -/
theorem chunk_concat_reproduces_text_witness :
    3 < ("ab\ncd\n".toList).length ∧
    (buildChunks 3 "ab\ncd\n".toList).length ≤ 6 ∧
    ((buildChunks 3 "ab\ncd\n".toList).flatten = "ab\ncd\n".toList ∧
     sendLongMarkdown 3 "ab\ncd\n".toList
        = DeliveryPlan.chunked ((buildChunks 3 "ab\ncd\n".toList).map pyStrip)) :=
  ⟨by decide, by decide,
    chunk_concat_reproduces_text 3 "ab\ncd\n".toList (by decide) (by decide)⟩

/-- C7: when line-bounded segmentation yields more than 6 chunks, the plan is
the single attachment carrying the original, untruncated text with the short
caption; no chunk of the discarded plan appears in the plan. -/
theorem attachment_fallback (maxTG : Nat) (text : List Char)
    (hgt : maxTG < text.length)
    (hmany : 6 < (buildChunks maxTG text).length) :
    sendLongMarkdown maxTG text = DeliveryPlan.attachment text attachmentCaption := by
  have h1 : ¬ text.length ≤ maxTG := by omega
  simp [sendLongMarkdown, h1, hmany]

/-- Witness for `attachment_fallback`: seven two-character lines with
`max_chunk_size = 1` produce eight chunks. -/
theorem attachment_fallback_witness :
    1 < ("a\nb\nc\nd\ne\nf\ng\n".toList).length ∧
    6 < (buildChunks 1 "a\nb\nc\nd\ne\nf\ng\n".toList).length ∧
    sendLongMarkdown 1 "a\nb\nc\nd\ne\nf\ng\n".toList
      = DeliveryPlan.attachment "a\nb\nc\nd\ne\nf\ng\n".toList attachmentCaption :=
  ⟨by decide, by decide,
    attachment_fallback 1 "a\nb\nc\nd\ne\nf\ng\n".toList (by decide) (by decide)⟩

/-- C8: text within the chunk-size limit is delivered as a single text payload
equal to the text. -/
theorem single_message_below_limit (maxTG : Nat) (text : List Char)
    (h : text.length ≤ maxTG) :
    sendLongMarkdown maxTG text = DeliveryPlan.single text := by
  simp [sendLongMarkdown, h]

/-- Witness for `single_message_below_limit`. -/
theorem single_message_below_limit_witness :
    ("ab".toList).length ≤ 5 ∧
    sendLongMarkdown 5 "ab".toList = DeliveryPlan.single "ab".toList :=
  ⟨by decide, single_message_below_limit 5 "ab".toList (by decide)⟩

/-- C9: `cmd_dir` deterministically selects exactly one of the two argv
templates from the probe's exit code: feroxbuster exactly when the probe
(`which feroxbuster` through `run_cmd`) exits 0, and the dirsearch fallback
otherwise; the preferred template is never chosen on a non-zero probe. -/
theorem dir_probe_two_branch (url : String) (probe : ProcOutcome) :
    (cmdDirChoice url probe = (feroxTemplate url, "feroxbuster") ∨
     cmdDirChoice url probe = (dirsearchTemplate url, "dirsearch")) ∧
    ((runCmd whichProbe probe).1.exitCode = 0 →
      cmdDirChoice url probe = (feroxTemplate url, "feroxbuster")) ∧
    ((runCmd whichProbe probe).1.exitCode ≠ 0 →
      cmdDirChoice url probe = (dirsearchTemplate url, "dirsearch") ∧
      cmdDirChoice url probe ≠ (feroxTemplate url, "feroxbuster")) := by
  unfold cmdDirChoice dirSelect
  by_cases h : (runCmd whichProbe probe).1.exitCode = 0
  · rw [if_pos h]
    refine ⟨Or.inl rfl, fun _ => rfl, fun hne => absurd h hne⟩
  · rw [if_neg h]
    refine ⟨Or.inr rfl, fun h0 => absurd h0 h, fun _ => ⟨rfl, ?_⟩⟩
    intro heq
    have : "dirsearch" = "feroxbuster" := congrArg Prod.snd heq
    exact absurd this (by decide)

/-- Witness for `dir_probe_two_branch`: a missing `which` binary makes the
probe report exit code 127, and the fallback template is selected. -/
theorem dir_probe_two_branch_witness :
    (runCmd whichProbe ProcOutcome.fileNotFound).1.exitCode ≠ 0 ∧
    (cmdDirChoice "https://example.com" ProcOutcome.fileNotFound
        = (dirsearchTemplate "https://example.com", "dirsearch") ∧
     cmdDirChoice "https://example.com" ProcOutcome.fileNotFound
        ≠ (feroxTemplate "https://example.com", "feroxbuster")) :=
  ⟨by decide,
    (dir_probe_two_branch "https://example.com" ProcOutcome.fileNotFound).2.2 (by decide)⟩

/-- C10: with an empty allowlist `_is_allowed` accepts every user id; with a
non-empty allowlist it accepts exactly the ids whose decimal string form is a
member of the allowlist. -/
theorem isAllowed_gate (allowlist : List String) (uid : Int) :
    (allowlist = [] → isAllowed allowlist uid = true) ∧
    (allowlist ≠ [] → (isAllowed allowlist uid = true ↔ toString uid ∈ allowlist)) := by
  constructor
  · intro h
    simp [isAllowed, h]
  · intro h
    have hne : ¬ allowlist.isEmpty = true := by
      simpa [List.isEmpty_iff] using h
    rw [isAllowed, if_neg hne]
    simp

/-- Witness for `isAllowed_gate`: the one-entry allowlist `["42"]` admits user
id 42. -/
theorem isAllowed_gate_witness :
    (["42"] : List String) ≠ [] ∧ isAllowed ["42"] 42 = true :=
  ⟨by decide, ((isAllowed_gate ["42"] 42).2 (by decide)).mpr (by decide)⟩

end ReconBot
